import Mathlib

/-!
Verification of the `categorize` Azure Function of DesignSignatureTimeline
(`src/api/categorize/index.js`).  The function batches transcript snippets,
sends each batch to a remote classifier, defensively parses the model output
and enforces per-caller hourly quotas.

The embedding below translates the source file into Lean:

* the greedy batching loop (source lines 200-212) becomes `batchLoop` /
  `batchTexts`, generic in the text type and length function since the loop
  only reads `text.length`;
* the quota tracker `checkAndIncrement` (lines 137-154) becomes
  `checkAndIncrement` over a functional map `Usage`;
* `safeParse` (lines 291-308) becomes `safeParse`; the JavaScript
  primitives `JSON.parse` and the regex extraction `content.match(...)` are
  opaque platform functions, so they are parameters (`parse`, `extract`);
* the per-batch task (lines 218-253) becomes `runBatch`; the remote call
  `anthropic.messages.create` followed by the extraction of the first text
  block is an opaque effectful collaborator, modelled as `remote : String →
  Option String` (`none` models a response with no text block); the prompt
  template `buildPrompt` (lines 268-289) is an opaque string builder whose
  exact text no claim depends on;
* `Promise.all` over the queue-serialised batch tasks (line 255) becomes
  `collectBatches`, which fails with the first failing batch in submission
  order, and `.flat()` (line 256) becomes `flattenResults`;
* the handler body (lines 159-266) becomes `handle`; the base64/JSON
  identity-header decoding (lines 167-193) is abstracted into the already
  resolved `clientId` argument, and the response shape is the record
  `Response` (HTTP headers are not modelled).  `handle` also returns the
  updated usage map and the number of remote calls attempted.

JavaScript JSON values are the inductive `Json`; a parsed model response is
an arbitrary such value (the source performs no shape validation).
-/

namespace Categorize

/-- `MAX_CHARS` from source line 129. -/
def MAX_CHARS : Nat := 5000

/-- The quota window, `60 * 60 * 1000` milliseconds (source line 139). -/
def windowMs : Int := 60 * 60 * 1000

/-- JavaScript JSON values, as produced by `JSON.parse`. -/
inductive Json where
  | null : Json
  | bool (b : Bool) : Json
  | num (n : Int) : Json
  | str (s : String) : Json
  | arr (elems : List Json) : Json
  | obj (fields : List (String × Json)) : Json

/-- A per-caller quota record `{count, resetAt}` (source line 143). -/
structure QuotaRecord where
  count : Nat
  resetAt : Int
deriving DecidableEq

/-- The in-memory `clientUsage` map (source line 135), as a function. -/
def Usage := String → Option QuotaRecord

/-- The map at process start: no caller has a record. -/
def emptyUsage : Usage := fun _ => none

/-- Source line 147: `const limit = clientId === "anonymous" ? 200 : 10`. -/
def limitFor (clientId : String) : Nat :=
  if clientId = "anonymous" then 200 else 10

/-- `checkAndIncrement` (source lines 137-154).  Reads the record for
`clientId`, replacing it by a fresh one when absent or expired; rejects when
the count has reached the caller's limit, leaving the map untouched;
otherwise stores the incremented record and admits.  `now` is `Date.now()`. -/
def checkAndIncrement (usage : Usage) (clientId : String) (now : Int) :
    Bool × Usage :=
  let record : QuotaRecord :=
    match usage clientId with
    | none => { count := 0, resetAt := now + windowMs }
    | some r => if now > r.resetAt then { count := 0, resetAt := now + windowMs } else r
  if limitFor clientId ≤ record.count then
    (false, usage)
  else
    (true, fun id => if id = clientId then
        some { count := record.count + 1, resetAt := record.resetAt }
      else usage id)

/-- A sequence of sequential `checkAndIncrement` calls, each a pair of the
caller id and the time `Date.now()` at which the call runs. -/
def stepCalls (usage : Usage) : List (String × Int) → Usage
  | [] => usage
  | (id, t) :: rest => stepCalls (checkAndIncrement usage id t).2 rest

/-- The greedy batching loop of source lines 201-212, with the loop state
(`batches`, `currentBatch`, `currentLength`) explicit.  Generic in the text
type: the loop reads texts only through `len` (JavaScript `text.length`). -/
def batchLoop {α : Type} (len : α → Nat) (maxChars : Nat) :
    List α → List (List α) → List α → Nat → List (List α)
  | [], batches, currentBatch, _ =>
      if currentBatch.length > 0 then batches ++ [currentBatch] else batches
  | text :: ts, batches, currentBatch, currentLength =>
      if currentLength + len text > maxChars then
        batchLoop len maxChars ts (batches ++ [currentBatch]) [text] (len text)
      else
        batchLoop len maxChars ts batches (currentBatch ++ [text]) (currentLength + len text)

/-- The Batcher: source lines 201-212 started from the empty state. -/
def batchTexts {α : Type} (len : α → Nat) (maxChars : Nat) (texts : List α) :
    List (List α) :=
  batchLoop len maxChars texts [] [] 0

/-- The fallback result `{text, category: ""}` built on source lines 224 and
306. -/
def emptyResult (text : String) : Json :=
  Json.obj [("text", Json.str text), ("category", Json.str "")]

/-- `safeParse` (source lines 291-308).  `parse` is the opaque platform
primitive `JSON.parse` (`none` models a parse exception); `extract` is the
opaque regex match `content.match(/(\[.*\]|\{.*\})/s)` returning the matched
substring.  A first strict parse; on failure, a parse of the extracted
substring; when that also fails, fall through to the fallback that pairs
each text of `batch` with an empty category (line 306). -/
def safeParse (parse : String → Option Json) (extract : String → Option String)
    (content : String) (batch : List String) : Json :=
  match parse content with
  | some v => v
  | none =>
    match extract content with
    | some sub =>
      match parse sub with
      | some v => v
      | none => Json.arr (batch.map emptyResult)
    | none => Json.arr (batch.map emptyResult)

/-- The two environment flags read on source lines 214-215. -/
structure Env where
  debugMode : Bool
  debugApiMode : Bool

/-- The opaque platform and collaborator functions the handler uses.
`parse`/`extract` are as in `safeParse`; `buildPrompt` is the template of
source lines 268-289 (its exact text is irrelevant to every claim);
`remote` models `anthropic.messages.create` followed by
`response.content.find(c => c.type === "text")?.text` on lines 228-239:
given the user prompt it yields the text block's string, or `none` when the
response has no text block. -/
structure Ext where
  parse : String → Option Json
  extract : String → Option String
  buildPrompt : List String → String
  remote : String → Option String

/-- The diagnostic record `{__debugPrompt, __debugApiResponse}` appended on
source line 248. -/
def debugRecord (prompt content : String) : Json :=
  Json.obj [("__debugPrompt", Json.str prompt), ("__debugApiResponse", Json.str content)]

/-- JavaScript array spread `[...parsed, ...]` (source line 247): arrays
spread to their elements, strings to their characters; any other value is
not iterable and throws a `TypeError`. -/
def spreadVal : Json → Except String (List Json)
  | Json.arr xs => Except.ok xs
  | Json.str s => Except.ok (s.data.map fun c => Json.str (String.mk [c]))
  | _ => Except.error "parsed is not iterable"

/-- One batch task (source lines 218-253).  `Except.error msg` models the
task's promise rejecting with an error whose message is `msg`; the thrown
`new Error("Unexpected Anthropic response")` of line 240 is the only error
raised on a missing text block. -/
def runBatch (env : Env) (ext : Ext) (batch : List String) : Except String Json :=
  let prompt := ext.buildPrompt batch
  if env.debugMode && !env.debugApiMode then
    Except.ok (Json.arr (batch.map emptyResult))
  else
    match ext.remote prompt with
    | none => Except.error "Unexpected Anthropic response"
    | some content =>
      let parsed := safeParse ext.parse ext.extract content batch
      if env.debugApiMode then
        match spreadVal parsed with
        | Except.error e => Except.error e
        | Except.ok xs => Except.ok (Json.arr (xs ++ [debugRecord prompt content]))
      else
        Except.ok parsed

/-- `await Promise.all(batchPromises)` (source line 255): the value list when
every batch task succeeds, otherwise the failure of the first failing batch
(the global one-per-interval queue runs the tasks in submission order, so
the first rejection to settle is the first in order). -/
def collectBatches (f : List String → Except String Json) :
    List (List String) → Except String (List Json)
  | [] => Except.ok []
  | b :: bs =>
    match f b with
    | Except.error e => Except.error e
    | Except.ok v =>
      match collectBatches f bs with
      | Except.error e => Except.error e
      | Except.ok vs => Except.ok (v :: vs)

/-- `resultsNested.flat()` (source line 256): flattens array values one
level, keeping non-array values as single elements. -/
def flattenResults (nested : List Json) : List Json :=
  nested.flatMap fun j =>
    match j with
    | Json.arr xs => xs
    | j => [j]

/-- The response the handler stores in `context.res`, with the fields the
source ever sets: an optional status (absent on success, line 258), the
`success` flag, the `error` message and the `results` list.  HTTP headers
are not modelled. -/
structure Response where
  status : Option Nat
  success : Option Bool
  error : Option String
  results : Option (List Json)

/-- Source lines 163-165: take `e.text` when it is a string, then
`filter(Boolean)`, which also drops empty strings.  Each entry is modelled
as `some text` when `e` is an object with a string `text` field, else
`none`. -/
def filterTexts (entries : List (Option String)) : List String :=
  (entries.filterMap id).filter fun t => t != ""

/-- The handler body (source lines 159-266).  The identity-header decoding
of lines 167-193 is abstracted into the already resolved `clientId`;
`now` is `Date.now()`.  Besides the response, `handle` returns the updated
usage map and the number of remote calls attempted: `Promise.all` starts
every batch task, so when the remote path is taken each batch attempts its
call (a rejection does not cancel the others). -/
def handle (env : Env) (ext : Ext) (usage : Usage) (clientId : String)
    (now : Int) (entries : List (Option String)) : Response × Usage × Nat :=
  let texts := filterTexts entries
  let gate := checkAndIncrement usage clientId now
  if gate.1 then
    let batches := batchTexts (fun t => t.length) MAX_CHARS texts
    let callCount := if env.debugMode && !env.debugApiMode then 0 else batches.length
    match collectBatches (runBatch env ext) batches with
    | Except.error msg =>
      ({ status := some 500, success := some false, error := some msg,
         results := none }, gate.2, callCount)
    | Except.ok nested =>
      ({ status := none, success := some true, error := none,
         results := some (flattenResults nested) }, gate.2, callCount)
  else
    ({ status := some 429, success := none, error := some "Hourly limit exceeded",
       results := none }, gate.2, 0)

/-! ### Batcher lemmas -/

/-- Flattening the loop's output recovers the accumulated batches, the
current batch and the remaining texts, in order. -/
theorem batchLoop_flatten {α : Type} (len : α → Nat) (m : Nat) :
    ∀ (ts : List α) (acc : List (List α)) (cur : List α) (n : Nat),
      (batchLoop len m ts acc cur n).flatten = acc.flatten ++ cur ++ ts := by
  intro ts
  induction ts with
  | nil =>
    intro acc cur n
    by_cases h : cur.length > 0
    · simp [batchLoop, h]
    · have hcur : cur = [] := by
        cases cur with
        | nil => rfl
        | cons a l => simp at h
      simp [batchLoop, h, hcur]
  | cons t ts ih =>
    intro acc cur n
    by_cases h : n + len t > m
    · simp [batchLoop, h, ih]
    · simp [batchLoop, h, ih]

/-- The loop's accumulated batches are a prefix of its result. -/
theorem batchLoop_acc {α : Type} (len : α → Nat) (m : Nat) :
    ∀ (ts : List α) (acc : List (List α)) (cur : List α) (n : Nat),
      batchLoop len m ts acc cur n = acc ++ batchLoop len m ts [] cur n := by
  intro ts
  induction ts with
  | nil =>
    intro acc cur n
    by_cases h : cur.length > 0 <;> simp [batchLoop, h]
  | cons t ts ih =>
    intro acc cur n
    by_cases h : n + len t > m
    · simp only [batchLoop, if_pos h]
      rw [ih (acc ++ [cur]) [t] (len t), ih ([] ++ [cur]) [t] (len t)]
      simp
    · simp only [batchLoop, if_neg h]
      exact ih acc (cur ++ [t]) (n + len t)

/-- When the running batch is non-empty, every batch the loop adds beyond
the already accumulated ones is non-empty. -/
theorem batchLoop_new_nonempty {α : Type} (len : α → Nat) (m : Nat) :
    ∀ (ts : List α) (acc : List (List α)) (cur : List α) (n : Nat),
      cur ≠ [] → ∀ b ∈ batchLoop len m ts acc cur n, b ∈ acc ∨ b ≠ [] := by
  intro ts
  induction ts with
  | nil =>
    intro acc cur n hcur b hb
    have hlen : cur.length > 0 := List.length_pos.mpr hcur
    simp [batchLoop, hlen] at hb
    rcases hb with hb | hb
    · exact Or.inl hb
    · exact Or.inr (hb ▸ hcur)
  | cons t ts ih =>
    intro acc cur n hcur b hb
    by_cases h : n + len t > m
    · simp only [batchLoop, if_pos h] at hb
      rcases ih (acc ++ [cur]) [t] (len t) (by simp) b hb with hmem | hne
      · rcases List.mem_append.mp hmem with hl | hr
        · exact Or.inl hl
        · exact Or.inr (by simp at hr; exact hr ▸ hcur)
      · exact Or.inr hne
    · simp only [batchLoop, if_neg h] at hb
      exact ih acc (cur ++ [t]) (n + len t) (by simp) b hb

/-- The loop's result is non-empty as soon as its state is. -/
theorem batchLoop_ne_nil {α : Type} (len : α → Nat) (m : Nat) :
    ∀ (ts : List α) (acc : List (List α)) (cur : List α) (n : Nat),
      acc ≠ [] ∨ cur ≠ [] → batchLoop len m ts acc cur n ≠ [] := by
  intro ts
  induction ts with
  | nil =>
    intro acc cur n hst
    by_cases h : cur.length > 0
    · simp [batchLoop, h]
    · have hcur : cur = [] := by
        cases cur with
        | nil => rfl
        | cons a l => simp at h
      rcases hst with hacc | hc
      · simpa [batchLoop, h] using hacc
      · exact absurd hcur hc
  | cons t ts ih =>
    intro acc cur n hst
    by_cases h : n + len t > m
    · simp only [batchLoop, if_pos h]
      exact ih (acc ++ [cur]) [t] (len t) (Or.inl (by simp))
    · simp only [batchLoop, if_neg h]
      exact ih acc (cur ++ [t]) (n + len t) (Or.inr (by simp))

/-- The size bound carried by the loop: assuming every accumulated batch is
within bound or a solitary oversized text, the current batch likewise, and
`n` is the current batch's summed length, the same holds of every batch the
loop emits. -/
theorem batchLoop_bound {α : Type} (len : α → Nat) (m : Nat) :
    ∀ (ts : List α) (acc : List (List α)) (cur : List α),
      (∀ b ∈ acc, (b.map len).sum ≤ m ∨ ∃ t, b = [t] ∧ m < len t) →
      ((cur.map len).sum ≤ m ∨ ∃ t, cur = [t] ∧ m < len t) →
      ∀ b ∈ batchLoop len m ts acc cur (cur.map len).sum,
        (b.map len).sum ≤ m ∨ ∃ t, b = [t] ∧ m < len t := by
  intro ts
  induction ts with
  | nil =>
    intro acc cur hacc hcur b hb
    by_cases h : cur.length > 0
    · simp [batchLoop, h] at hb
      rcases hb with hb | hb
      · exact hacc b hb
      · exact hb ▸ hcur
    · simp [batchLoop, h] at hb
      exact hacc b hb
  | cons t ts ih =>
    intro acc cur hacc hcur b hb
    by_cases h : (cur.map len).sum + len t > m
    · simp only [batchLoop, if_pos h] at hb
      have hsingle : (([t].map len)).sum = len t := by simp
      have := ih (acc ++ [cur]) [t]
        (by
          intro b hbmem
          rcases List.mem_append.mp hbmem with hl | hr
          · exact hacc b hl
          · simp at hr
            exact hr ▸ hcur)
        (by
          rcases le_or_lt (len t) m with hle | hlt
          · exact Or.inl (by simpa using hle)
          · exact Or.inr ⟨t, rfl, hlt⟩)
      rw [hsingle] at this
      exact this b hb
    · simp only [batchLoop, if_neg h] at hb
      have hsum : ((cur ++ [t]).map len).sum = (cur.map len).sum + len t := by
        simp
      have := ih acc (cur ++ [t]) hacc
        (Or.inl (by rw [hsum]; exact Nat.le_of_not_lt h))
      rw [hsum] at this
      exact this b hb

/-! ### Claim theorems: Batcher -/

/-- Claim C1: for every sequence of texts and every character ceiling,
concatenating the batches produced by the greedy batching loop (batches in
emission order, texts within each batch in order) reproduces the original
text sequence exactly — no text is duplicated, dropped or reordered. -/
theorem batch_roundtrip {α : Type} (len : α → Nat) (maxChars : Nat)
    (texts : List α) : (batchTexts len maxChars texts).flatten = texts := by
  simpa [batchTexts] using batchLoop_flatten len maxChars texts [] [] 0

/-- Claim C2: every batch the loop produces has summed length at most the
ceiling, or is exactly one oversized text; moreover an oversized text is
always isolated as the sole member of its batch. -/
theorem batch_size_bound {α : Type} (len : α → Nat) (maxChars : Nat)
    (texts : List α) :
    ∀ b ∈ batchTexts len maxChars texts,
      ((b.map len).sum ≤ maxChars ∨ ∃ t, b = [t] ∧ maxChars < len t) ∧
      (∀ t ∈ b, maxChars < len t → b = [t]) := by
  intro b hb
  have hQ : (b.map len).sum ≤ maxChars ∨ ∃ t, b = [t] ∧ maxChars < len t := by
    have h0 := batchLoop_bound len maxChars texts [] []
      (by intro b2 hb2; simp at hb2) (Or.inl (by simp))
    simp only [List.map_nil, List.sum_nil] at h0
    exact h0 b (by simpa [batchTexts] using hb)
  refine ⟨hQ, ?_⟩
  intro t ht hlt
  rcases hQ with hle | ⟨t₂, hb2, _⟩
  · exfalso
    have hmem : len t ∈ b.map len := List.mem_map_of_mem len ht
    have : len t ≤ (b.map len).sum := List.le_sum_of_mem hmem
    omega
  · have : t = t₂ := by
      rw [hb2] at ht
      simpa using ht
    rw [hb2, this]

/-- Witness for C2 at a concrete input: with ceiling 5 the texts
`["abc", "de", "fgh"]` batch as `[["abc", "de"], ["fgh"]]`; the first batch
satisfies the bound and contains no oversized text. -/
theorem batch_size_bound_witness :
    (((["abc", "de"] : List String).map (fun s => s.length)).sum ≤ 5 ∨
        ∃ t, (["abc", "de"] : List String) = [t] ∧ 5 < t.length) ∧
      (∀ t ∈ (["abc", "de"] : List String), 5 < t.length → ["abc", "de"] = [t]) :=
  batch_size_bound (fun s : String => s.length) 5 ["abc", "de", "fgh"]
    ["abc", "de"] (by decide)

/-- A concrete text of 5001 characters, longer than `MAX_CHARS`. -/
def oversizedText : String := String.mk (List.replicate 5001 'a')

theorem oversizedText_length : oversizedText.length = 5001 := by
  show (List.replicate 5001 'a').length = 5001
  exact List.length_replicate 5001 'a'

/-- A single text longer than the ceiling yields an empty first batch
followed by the singleton batch of that text. -/
theorem batch_empty_of_oversized_head {α : Type} (len : α → Nat) (m : Nat)
    (t : α) (h : m < len t) : batchTexts len m [t] = [[], [t]] := by
  have h2 : 0 + len t > m := by omega
  simp [batchTexts, batchLoop, h2, h]

/-- Claim C7 counterexample: on an input whose first text is longer than the
ceiling, the loop closes the still-empty current batch first, so the very
first emitted batch is empty — refuting that no empty batch is ever
produced. -/
theorem batch_empty_counterexample :
    batchTexts (fun s : String => s.length) MAX_CHARS [oversizedText] =
      [[], [oversizedText]] ∧
    [] ∈ batchTexts (fun s : String => s.length) MAX_CHARS [oversizedText] := by
  have h := batch_empty_of_oversized_head (fun s : String => s.length)
    MAX_CHARS oversizedText
    (by show MAX_CHARS < oversizedText.length
        rw [oversizedText_length]; norm_num [MAX_CHARS])
  exact ⟨h, by rw [h]; simp⟩

/-- Claim C7 as amended: an empty input yields zero batches; every batch
after the first is non-empty; the output is non-empty on non-empty input;
and the first batch is empty exactly when the first text is longer than the
ceiling. -/
theorem batch_nonempty_amended {α : Type} (len : α → Nat) (maxChars : Nat) :
    batchTexts len maxChars ([] : List α) = [] ∧
    ∀ (t : α) (ts : List α),
      (∀ b ∈ (batchTexts len maxChars (t :: ts)).drop 1, b ≠ []) ∧
      batchTexts len maxChars (t :: ts) ≠ [] ∧
      ((batchTexts len maxChars (t :: ts)).head? = some [] ↔ maxChars < len t) := by
  constructor
  · simp [batchTexts, batchLoop]
  intro t ts
  by_cases h : 0 + len t > maxChars
  · have hrw : batchTexts len maxChars (t :: ts) =
        [] :: batchLoop len maxChars ts [] [t] (len t) := by
      simp only [batchTexts, batchLoop, if_pos h, List.nil_append]
      rw [batchLoop_acc len maxChars ts [[]] [t] (len t)]
      simp
    refine ⟨?_, ?_, ?_⟩
    · intro b hb
      rw [hrw] at hb
      simp only [List.drop_succ_cons, List.drop_zero] at hb
      rcases batchLoop_new_nonempty len maxChars ts [] [t] (len t) (by simp) b hb with
        hmem | hne
      · simp at hmem
      · exact hne
    · rw [hrw]; simp
    · refine ⟨fun _ => by omega, fun _ => ?_⟩
      rw [hrw]
      rfl
  · have hrw : batchTexts len maxChars (t :: ts) =
        batchLoop len maxChars ts [] [t] (0 + len t) := by
      simp only [batchTexts, batchLoop, if_neg h, List.nil_append]
    have hall : ∀ b ∈ batchLoop len maxChars ts [] [t] (0 + len t), b ≠ [] := by
      intro b hb
      rcases batchLoop_new_nonempty len maxChars ts [] [t] (0 + len t) (by simp) b hb with
        hmem | hne
      · simp at hmem
      · exact hne
    refine ⟨?_, ?_, ?_⟩
    · intro b hb
      rw [hrw] at hb
      exact hall b (List.drop_subset 1 _ hb)
    · rw [hrw]
      exact batchLoop_ne_nil len maxChars ts [] [t] (0 + len t) (Or.inr (by simp))
    · rw [hrw]
      constructor
      · intro hhead
        exfalso
        cases hloop : batchLoop len maxChars ts [] [t] (0 + len t) with
        | nil => rw [hloop] at hhead; simp at hhead
        | cons b bs =>
          rw [hloop] at hhead
          simp only [List.head?_cons, Option.some.injEq] at hhead
          exact hall b (by rw [hloop]; simp) hhead
      · intro hlt; omega

/-- Witness for the amended C7 at a concrete input: with ceiling 5 the texts
`["abc", "de", "fgh"]` batch as `[["abc", "de"], ["fgh"]]`; the second batch
is non-empty, the output is non-empty, and the first batch is not empty
since `"abc"` is not oversized. -/
theorem batch_nonempty_amended_witness :
    (["fgh"] : List String) ≠ [] ∧
    batchTexts (fun s : String => s.length) 5 ["abc", "de", "fgh"] ≠ [] ∧
    ¬ (batchTexts (fun s : String => s.length) 5 ["abc", "de", "fgh"]).head? =
      some [] := by
  have h := (batch_nonempty_amended (fun s : String => s.length) 5).2 "abc" ["de", "fgh"]
  refine ⟨h.1 ["fgh"] (by decide), h.2.1, ?_⟩
  intro hh
  exact absurd (h.2.2.mp hh) (by decide)

/-! ### Claim theorems: parsing -/

/-- Claim C3: if the model's textual response neither parses as JSON nor
contains an extractable JSON substring that parses, `safeParse` returns
exactly one result per input text of the batch, each pairing the original
text with an empty category string, in the batch's original order; the
parse failure is recovered (the function returns normally) and no text is
lost or reordered. -/
theorem safeParse_fallback (parse : String → Option Json)
    (extract : String → Option String) (content : String) (batch : List String)
    (h1 : parse content = none)
    (h2 : ∀ sub, extract content = some sub → parse sub = none) :
    safeParse parse extract content batch = Json.arr (batch.map emptyResult) ∧
    (batch.map emptyResult).length = batch.length := by
  refine ⟨?_, List.length_map batch emptyResult⟩
  unfold safeParse
  rw [h1]
  cases hex : extract content with
  | none => rfl
  | some sub =>
    have hps := h2 sub hex
    simp [hps]

/-- Witness for C3: with a parser and extractor that always fail, a
two-text batch falls back to the two original texts with empty
categories. -/
theorem safeParse_fallback_witness :
    safeParse (fun _ => none) (fun _ => none) "not json" ["a", "b"] =
      Json.arr [emptyResult "a", emptyResult "b"] ∧
    ((["a", "b"] : List String).map emptyResult).length = 2 :=
  safeParse_fallback (fun _ => none) (fun _ => none) "not json" ["a", "b"]
    rfl (fun _ hsub => by cases hsub)

/-- Claim C10 (implicit): when the model's raw output parses as JSON — or,
the strict parse failing, when the extracted JSON substring parses —
`safeParse` returns the parsed value verbatim, independent of the batch and
with no validation of the value's shape, and the per-batch task passes it
through unchanged (outside the debug modes), so the results a batch
contributes need not correspond to its input texts. -/
theorem safeParse_no_validation (ext : Ext) (batch : List String)
    (content : String) (v : Json)
    (hrem : ext.remote (ext.buildPrompt batch) = some content)
    (hparse : ext.parse content = some v ∨
      (ext.parse content = none ∧
        ∃ sub, ext.extract content = some sub ∧ ext.parse sub = some v)) :
    safeParse ext.parse ext.extract content batch = v ∧
    runBatch { debugMode := false, debugApiMode := false } ext batch =
      Except.ok v := by
  have hsp : safeParse ext.parse ext.extract content batch = v := by
    unfold safeParse
    rcases hparse with hps | ⟨hnone, sub, hex, hps⟩
    · rw [hps]
    · rw [hnone]
      simp [hex, hps]
  refine ⟨hsp, ?_⟩
  simp [runBatch, hrem, hsp]

/-- Collaborator for the C10 witness: the model response carries leading
commentary, so the strict parse fails, but the extracted substring parses to
the bare number `7`. -/
def extSub : Ext :=
  { parse := fun s => if s = "[7]" then some (Json.num 7) else none,
    extract := fun _ => some "[7]",
    buildPrompt := fun _ => "",
    remote := fun _ => some "note [7]" }

/-- Witness for C10, exercising the extracted-substring branch of the
hypothesis: the strict parse of the commented response fails, the extracted
substring parses to the bare number `7`, and a two-text batch contributes
exactly that single non-result value. -/
theorem safeParse_no_validation_witness :
    safeParse extSub.parse extSub.extract "note [7]" ["a", "b"] = Json.num 7 ∧
    runBatch { debugMode := false, debugApiMode := false } extSub ["a", "b"] =
      Except.ok (Json.num 7) :=
  safeParse_no_validation extSub ["a", "b"] "note [7]" (Json.num 7) rfl
    (Or.inr ⟨rfl, "[7]", rfl, rfl⟩)

/-! ### Quota lemmas -/

/-- The invariant preserved by one `checkAndIncrement` call: every stored
count stays at or below its caller's limit. -/
theorem checkAndIncrement_preserves (usage : Usage) (clientId : String)
    (now : Int)
    (hinv : ∀ id r, usage id = some r → r.count ≤ limitFor id) :
    ∀ id r, (checkAndIncrement usage clientId now).2 id = some r →
      r.count ≤ limitFor id := by
  intro id r
  unfold checkAndIncrement
  set record : QuotaRecord :=
    match usage clientId with
    | none => { count := 0, resetAt := now + windowMs }
    | some r => if now > r.resetAt then { count := 0, resetAt := now + windowMs } else r
    with hrecord
  by_cases hlim : limitFor clientId ≤ record.count
  · simp only [if_pos hlim]
    exact hinv id r
  · simp only [if_neg hlim]
    by_cases hid : id = clientId
    · simp only [if_pos hid]
      intro hsome
      injection hsome with h3
      have hc : r.count = record.count + 1 := by rw [← h3]
      rw [hc, hid]
      omega
    · simp only [if_neg hid]
      exact hinv id r

/-- The invariant holds after any sequence of sequential calls from any
invariant-satisfying map. -/
theorem stepCalls_preserves (calls : List (String × Int)) :
    ∀ (usage : Usage),
      (∀ id r, usage id = some r → r.count ≤ limitFor id) →
      ∀ id r, stepCalls usage calls id = some r → r.count ≤ limitFor id := by
  induction calls with
  | nil => intro usage hinv id r h; exact hinv id r h
  | cons c rest ih =>
    intro usage hinv id r h
    exact ih (checkAndIncrement usage c.1 c.2).2
      (checkAndIncrement_preserves usage c.1 c.2 hinv) id r
      (by
        cases c
        exact h)

/-! ### Claim theorems: quota -/

/-- Claim C4: for every sequence of sequential `checkAndIncrement` calls
starting from the empty usage map, the stored admitted-request count of
every caller never exceeds that caller's assigned limit. -/
theorem quota_count_bounded (calls : List (String × Int)) (id : String)
    (r : QuotaRecord) (h : stepCalls emptyUsage calls id = some r) :
    r.count ≤ limitFor id :=
  stepCalls_preserves calls emptyUsage
    (by intro id2 r2 h2; cases h2) id r h

/-- Witness for C4: after one admitted call by caller `"u"` at time 0, the
stored count is 1, which is at most the limit for `"u"`. -/
theorem quota_count_bounded_witness : (1 : Nat) ≤ limitFor "u" :=
  quota_count_bounded [("u", 0)] "u"
    { count := 1, resetAt := 3600000 } (by decide)

/-- Claim C8: the hourly limit of the anonymous identity is 200, the limit
of every identified caller is 10, and the anonymous limit is strictly
larger. -/
theorem anonymous_limit_larger (id : String) (h : id ≠ "anonymous") :
    limitFor "anonymous" = 200 ∧ limitFor id = 10 ∧
      limitFor id < limitFor "anonymous" := by
  simp [limitFor, h]

/-- Witness for C8 at a concrete identified caller. -/
theorem anonymous_limit_larger_witness :
    limitFor "anonymous" = 200 ∧ limitFor "user@example.com" = 10 ∧
      limitFor "user@example.com" < limitFor "anonymous" :=
  anonymous_limit_larger "user@example.com" (by decide)

/-! ### Orchestrator lemmas -/

/-- If some member batch fails, `Promise.all` fails. -/
theorem collectBatches_error (f : List String → Except String Json) :
    ∀ (bs : List (List String)) (b : List String), b ∈ bs →
      (∃ e, f b = Except.error e) →
      ∃ e2, collectBatches f bs = Except.error e2 := by
  intro bs
  induction bs with
  | nil => intro b hb; cases hb
  | cons hd tl ih =>
    intro b hb ⟨e, he⟩
    cases hf : f hd with
    | error e3 => exact ⟨e3, by simp [collectBatches, hf]⟩
    | ok v =>
      rcases List.mem_cons.mp hb with rfl | htl
      · rw [he] at hf; cases hf
      · obtain ⟨e2, hcoll⟩ := ih b htl ⟨e, he⟩
        exact ⟨e2, by simp [collectBatches, hf, hcoll]⟩

/-! ### Claim theorems: orchestrator error handling -/

/-- Claim C5: when the caller's current record has reached its limit,
`checkAndIncrement` returns `false` and leaves the usage map untouched, and
the handler responds with status 429 and body `{error: "Hourly limit
exceeded"}` carrying no `results` field, with zero remote calls attempted. -/
theorem quota_reject_atomic (env : Env) (ext : Ext) (usage : Usage)
    (clientId : String) (now : Int) (entries : List (Option String))
    (r : QuotaRecord) (hrec : usage clientId = some r)
    (hlive : ¬ now > r.resetAt) (hfull : limitFor clientId ≤ r.count) :
    checkAndIncrement usage clientId now = (false, usage) ∧
    handle env ext usage clientId now entries =
      ({ status := some 429, success := none,
         error := some "Hourly limit exceeded", results := none }, usage, 0) := by
  have hci : checkAndIncrement usage clientId now = (false, usage) := by
    unfold checkAndIncrement
    rw [hrec]
    simp [hlive, hfull]
  exact ⟨hci, by simp [handle, hci]⟩

/-- The concrete usage map for the C5 witness: caller `"u"` has consumed its
whole quota inside a live window. -/
def usageFull : Usage :=
  fun id => if id = "u" then some { count := 10, resetAt := 100 } else none

/-- The trivial collaborator whose remote call never yields a text block. -/
def extNone : Ext :=
  { parse := fun _ => none, extract := fun _ => none,
    buildPrompt := fun _ => "", remote := fun _ => none }

/-- Witness for C5: the exhausted caller `"u"` is rejected at time 50 with a
429 response, an untouched usage map and zero remote calls. -/
theorem quota_reject_atomic_witness :
    checkAndIncrement usageFull "u" 50 = (false, usageFull) ∧
    handle { debugMode := false, debugApiMode := false } extNone usageFull
        "u" 50 [some "hi"] =
      ({ status := some 429, success := none,
         error := some "Hourly limit exceeded", results := none },
        usageFull, 0) :=
  quota_reject_atomic { debugMode := false, debugApiMode := false } extNone
    usageFull "u" 50 [some "hi"] { count := 10, resetAt := 100 }
    (by simp [usageFull]) (by decide) (by decide)

/-- Claim C6: whenever the request is admitted, the remote path is active
(the pure-debug bypass is off), and some batch's remote call yields a
response with no textual content block, the whole request resolves to a 500
response with `success: false`, the failing error's message and no results
— no partial success response is constructed. -/
theorem transport_error_propagates (env : Env) (ext : Ext) (usage : Usage)
    (clientId : String) (now : Int) (entries : List (Option String))
    (hok : (checkAndIncrement usage clientId now).1 = true)
    (hmode : env.debugMode = false ∨ env.debugApiMode = true)
    (hbad : ∃ b ∈ batchTexts (fun t : String => t.length) MAX_CHARS
        (filterTexts entries), ext.remote (ext.buildPrompt b) = none) :
    ∃ msg, (handle env ext usage clientId now entries).1 =
      { status := some 500, success := some false, error := some msg,
        results := none } := by
  obtain ⟨b, hb, hrem⟩ := hbad
  have hcond : (env.debugMode && !env.debugApiMode) = false := by
    rcases hmode with h | h <;> simp [h]
  have hrun : runBatch env ext b = Except.error "Unexpected Anthropic response" := by
    simp [runBatch, hcond, hrem]
  obtain ⟨msg, hcoll⟩ := collectBatches_error (runBatch env ext)
    (batchTexts (fun t : String => t.length) MAX_CHARS (filterTexts entries))
    b hb ⟨_, hrun⟩
  exact ⟨msg, by simp [handle, hok, hcoll]⟩

/-- Witness for C6: a fresh caller sends one text and the remote response
has no text block; the request resolves to a 500 failure envelope. -/
theorem transport_error_propagates_witness :
    ∃ msg, (handle { debugMode := false, debugApiMode := false } extNone
        emptyUsage "u" 0 [some "hi"]).1 =
      { status := some 500, success := some false, error := some msg,
        results := none } :=
  transport_error_propagates { debugMode := false, debugApiMode := false }
    extNone emptyUsage "u" 0 [some "hi"] (by decide) (Or.inl rfl)
    ⟨["hi"], by decide, rfl⟩

/-- The collaborator for the C9 divergence: the remote call answers with the
literal text `"[]"`, which parses as the empty JSON array. -/
def extDbg : Ext :=
  { parse := fun s => if s = "[]" then some (Json.arr []) else none,
    extract := fun _ => none,
    buildPrompt := fun _ => "P",
    remote := fun _ => some "[]" }

/-- Claim C9 is violated by the code: with `DEBUG_MODE` off, turning
`DEBUG_API` on changes the response — the per-batch diagnostic record
`{__debugPrompt, __debugApiResponse}` is appended to the results even though
the bypass flag is not set, so the sub-flag has an observable effect. -/
theorem debugApi_observable_without_debugMode :
    ((handle { debugMode := false, debugApiMode := true } extDbg emptyUsage
        "anonymous" 0 [some "hi"]).1).results = some [debugRecord "P" "[]"] ∧
    ((handle { debugMode := false, debugApiMode := false } extDbg emptyUsage
        "anonymous" 0 [some "hi"]).1).results = some [] ∧
    ((handle { debugMode := false, debugApiMode := true } extDbg emptyUsage
        "anonymous" 0 [some "hi"]).1).results ≠
      ((handle { debugMode := false, debugApiMode := false } extDbg emptyUsage
        "anonymous" 0 [some "hi"]).1).results := by
  have h1 : ((handle { debugMode := false, debugApiMode := true } extDbg emptyUsage
      "anonymous" 0 [some "hi"]).1).results = some [debugRecord "P" "[]"] := rfl
  have h2 : ((handle { debugMode := false, debugApiMode := false } extDbg emptyUsage
      "anonymous" 0 [some "hi"]).1).results = some [] := rfl
  refine ⟨h1, h2, ?_⟩
  rw [h1, h2]
  intro heq
  simp at heq

end Categorize
